import Mathlib

/-!
Verification of the git-secret-scanner core (Python sources under
src/python/gitsecret/).  Strings are modelled as `List Char`; every Python
string operation used by the code (substring test, `split`, `replace`,
`lower`, slicing, lexicographic `<`) is given a direct executable
translation.  Regular-expression searching is the one external facility that
is not re-implemented: a compiled extraction pattern carries an abstract
`search` function returning the match's capture groups (Python
`match.groups()`; unmatched optional groups are not modelled, no default
configuration pattern has any).
-/

set_option maxRecDepth 10000

/-- Python strings, modelled as lists of characters. -/
abbrev Str := List Char

/-- Python `s.lower()` (ASCII case folding; every input considered here is
ASCII). -/
def lowerStr (s : Str) : Str := s.map Char.toLower

/-- Python lexicographic `<` on strings, by code point. -/
def strLt : Str → Str → Bool
  | _, [] => false
  | [], _ :: _ => true
  | a :: as, b :: bs =>
    if a.toNat < b.toNat then true
    else if b.toNat < a.toNat then false
    else strLt as bs

/-- Python substring containment `old in s`. -/
def containsSub (old : Str) : Str → Bool
  | [] => old.isPrefixOf []
  | c :: rest => if old.isPrefixOf (c :: rest) then true else containsSub old rest

/-- Break a string at the first occurrence of character `c`. -/
def breakAtChar (c : Char) : Str → Option (Str × Str)
  | [] => none
  | x :: r =>
    if x = c then some ([], r)
    else match breakAtChar c r with
      | none => none
      | some (a, b) => some (x :: a, b)

/-- Python `s.split(c, maxsplit)`: at most `maxsplit` splits. -/
def splitCharLimit (c : Char) : Nat → Str → List Str
  | 0, s => [s]
  | n + 1, s =>
    match breakAtChar c s with
    | none => [s]
    | some (a, b) => a :: splitCharLimit c n b

/-- Python `s.split(c)` with no limit. -/
def splitChar (c : Char) : Str → List Str
  | [] => [[]]
  | x :: rest =>
    if x = c then [] :: splitChar c rest
    else match splitChar c rest with
      | [] => [[x]]
      | r :: rs => (x :: r) :: rs

/-- The part of `s` before the first occurrence of the (non-empty) separator
`sep`; the whole of `s` when `sep` does not occur.  This is Python
`s.split(sep)[0]`. -/
def takeUntilSub (sep : Str) : Str → Str
  | [] => []
  | c :: rest => if sep.isPrefixOf (c :: rest) then [] else c :: takeUntilSub sep rest

/-- Helper for `pyReplace`: replace occurrences of `o :: old'` by `new`,
scanning left to right, skipping over each replacement (Python `str.replace`
replaces non-overlapping occurrences).  `fuel` bounds the recursion and is
instantiated with the string length. -/
def replaceFuel (o : Char) (old' new : Str) : Nat → Str → Str
  | 0, s => s
  | _ + 1, [] => []
  | fuel + 1, c :: rest =>
    if (o :: old').isPrefixOf (c :: rest) then
      new ++ replaceFuel o old' new fuel (rest.drop old'.length)
    else
      c :: replaceFuel o old' new fuel rest

/-- Python `s.replace(old, new)` (all occurrences).  For `old = ""` Python
inserts `new` before every character and at the end. -/
def pyReplace (s old new : Str) : Str :=
  match old with
  | [] => new ++ (s.map (fun c => c :: new)).flatten
  | o :: old' => replaceFuel o old' new s.length s

/-! ## config.py -/

/-- `Settings` (config.py). -/
structure Settings where
  min_secret_length : Nat
  max_secret_length : Nat
  case_sensitive : Bool
deriving DecidableEq

/-- `KeywordGroup` (config.py); `description` is not used by the core. -/
structure KeywordGroup where
  name : Str
  patterns : List Str
deriving DecidableEq

/-- `Config` (config.py).  `extraction_patterns` hold regex source text and
are consumed only through `get_compiled_patterns`; the compiled patterns are
passed to the scanner separately (see `CompiledPattern`). -/
structure Config where
  keywords : List KeywordGroup
  ignored_values : List Str
  ignored_files : List Str
  exclude_binary_extensions : List Str
  settings : Settings

/-- `Config.get_all_keywords` (config.py): concatenate every group's
patterns, in order. -/
def get_all_keywords (cfg : Config) : List Str :=
  (cfg.keywords.map (fun g => g.patterns)).flatten

/-- `_looks_like_code`, the identifier-dot-Identifier case (config.py):
characters allowed in the first segment. -/
def isSimpleIdentChar (c : Char) : Bool :=
  if 'a' ≤ c ∧ c ≤ 'z' then true
  else if 'A' ≤ c ∧ c ≤ 'Z' then true
  else if '0' ≤ c ∧ c ≤ '9' then true
  else c = '_'

/-- `_looks_like_code`, the `value.count('.') == 1` branch (config.py):
`parts[0]` a simple identifier, `parts[1]` starting with an uppercase
letter, both non-empty. -/
def dotFieldAccess (value : Str) : Bool :=
  match splitChar '.' value with
  | [p0, p1] =>
    if 0 < p0.length ∧ 0 < p1.length then
      match p1.head? with
      | some c => if 'A' ≤ c ∧ c ≤ 'Z' then p0.all isSimpleIdentChar else false
      | none => false
    else false
  | _ => false

/-- The code-keyword prefixes of `_looks_like_code` (config.py). -/
def code_keywords : List Str :=
  ["func ".toList, "return ".toList, "if ".toList, "for ".toList,
   "range ".toList, "make(".toList, "append(".toList, "new(".toList,
   "len(".toList]

/-- `_looks_like_code` (config.py). -/
def looks_like_code (value : Str) : Bool :=
  if value.contains '(' ∧ value.contains ')' then true
  else if value.contains '[' ∧ value.contains ']' then true
  else if value.head? = some '{' ∨ value.getLast? = some '}' then true
  else if 2 < value.count '.' then true
  else if value.count '.' = 1 ∧ dotFieldAccess value then true
  else if code_keywords.any (fun kw => kw.isPrefixOf value) then true
  else false

/-- The URL prefixes rejected by `Config.should_ignore_value` (config.py). -/
def url_prefixes : List Str :=
  ["http://".toList, "https://".toList, "ftp://".toList,
   "ssh://".toList, "file://".toList, "mailto:".toList]

/-- The common keywords rejected by `Config.should_ignore_value`
(config.py). -/
def common_keywords : List Str :=
  ["password".toList, "secret".toList, "token".toList, "key".toList,
   "credential".toList, "auth".toList, "pass".toList, "pwd".toList]

/-- `Config.should_ignore_value` (config.py).  Note that `value_lower` is the
lowercased value and is the string tested against the ignore list in both
the case-sensitive and the case-insensitive branch: only the ignored entry's
folding depends on `case_sensitive`. -/
def should_ignore_value (cfg : Config) (value : Str) : Bool :=
  if value.length < cfg.settings.min_secret_length ∨
      cfg.settings.max_secret_length < value.length then true
  else if looks_like_code value then true
  else
    let value_lower := lowerStr value
    if url_prefixes.any (fun p => p.isPrefixOf value_lower) then true
    else if common_keywords.any (fun kw => value_lower = kw) then true
    else if cfg.ignored_values.any (fun ig =>
        containsSub (if cfg.settings.case_sensitive then ig else lowerStr ig)
          value_lower) then true
    else false

/-- `_match_pattern` (config.py): the three glob shapes. -/
def match_pattern (pat : Str) (file_path : Str) : Bool :=
  if containsSub "**".toList pat then
    (takeUntilSub "**".toList pat).isPrefixOf file_path
  else if ("*.".toList).isPrefixOf pat then
    (pat.drop 1).isSuffixOf file_path
  else if pat.getLast? = some '/' then pat.isPrefixOf file_path
  else pat == file_path

/-- `Config.should_ignore_file` (config.py). -/
def should_ignore_file (cfg : Config) (file_path : Str) : Bool :=
  cfg.ignored_files.any (fun p => match_pattern p file_path)

/-! ## The three masking functions (scanner.py, analyzer.py, cleaner.py) -/

namespace Scanner

/-- `mask_secret` (scanner.py): first two, `min(len - 4, 16)` asterisks,
last two; `"****"` for values of length at most 4. -/
def mask_secret (value : Str) : Str :=
  if value.length ≤ 4 then "****".toList
  else
    let first_two := value.take 2
    let last_two := value.drop (value.length - 2)
    let num_asterisks := min (value.length - 4) 16
    first_two ++ List.replicate num_asterisks '*' ++ last_two

end Scanner

namespace Analyzer

/-- `mask_secret` (analyzer.py): first two, `len - 4` asterisks, last two —
this variant has no cap on the number of asterisks. -/
def mask_secret (value : Str) : Str :=
  if value.length ≤ 4 then "****".toList
  else value.take 2 ++ List.replicate (value.length - 4) '*' ++
    value.drop (value.length - 2)

end Analyzer

namespace Cleaner

/-- `mask_secret` (cleaner.py): identical computation to the scanner's. -/
def mask_secret (value : Str) : Str :=
  if value.length ≤ 4 then "****".toList
  else
    let mask_len := min (value.length - 4) 16
    value.take 2 ++ List.replicate mask_len '*' ++ value.drop (value.length - 2)

end Cleaner

/-- The masked rendering as the specification words it: `"****"` when
`|v| ≤ 4`, else the first two characters, `min(|v| - 4, 16)` asterisks and
the last two characters. -/
def specMaskedValue (v : Str) : Str :=
  if v.length ≤ 4 then "****".toList
  else v.take 2 ++ List.replicate (min (v.length - 4) 16) '*' ++
    v.drop (v.length - 2)

/-! ## scanner.py — data classes and the in-memory scan pipeline -/

namespace Scanner

/-- `SecretValue` (scanner.py).  `commits` and `authors` hold what the merge
appends: the parser's current commit/author, which are `None` until the
first commit header, hence `Option Str`.  `first_seen`/`last_seen` are
created as the empty string and may be overwritten by the (possibly absent)
current date. -/
structure SecretValue where
  value : Str
  masked_value : Str
  commits : List (Option Str)
  authors : List (Option Str)
  first_seen : Option Str
  last_seen : Option Str
deriving DecidableEq

/-- `Secret` (scanner.py). -/
structure Secret where
  file : Str
  key : Str
  type : Str
  change_count : Nat
  total_occurrences : Nat
  authors : List (Option Str)
  history : List SecretValue
deriving DecidableEq

/-- `ScanResult` (scanner.py); `scan_date` (wall-clock time at result
construction) is omitted. -/
structure ScanResult where
  repository : Str
  branch : Str
  secrets_found : Nat
  total_values : Nat
  secrets : List Secret
deriving DecidableEq

/-- `StreamEntry` (scanner.py). -/
structure StreamEntry where
  file : Str
  key : Str
  value : Str
  masked_value : Str
  type : Str
  commit : Option Str
  author : Option Str
  date : Option Str
deriving DecidableEq

/-- `CompiledPattern` (config.py): the regex is abstracted into a `search`
function returning the capture groups of the match, if any (Python
`regex.search(line)` followed by `match.groups()`). -/
structure CompiledPattern where
  name : Str
  search : Str → Option (List Str)
  value_group : Nat

/-- Python truthiness of an optional string (`None` and `""` are falsy). -/
def truthyO : Option Str → Bool
  | none => false
  | some s => !s.isEmpty

/-- `Scanner.extract_key_value` (scanner.py): try each compiled pattern in
order; on a match take group 1 as key and group `value_group` as value;
a value rejected by `should_ignore_value` sends the loop to the next
pattern. -/
def extract_key_value (cfg : Config) (pats : List CompiledPattern) (line : Str) :
    Option (Str × Str) :=
  match pats with
  | [] => none
  | p :: ps =>
    match p.search line with
    | some groups =>
      if p.value_group ≤ groups.length then
        match groups.get? 0, groups.get? (p.value_group - 1) with
        | some k, some v =>
          if should_ignore_value cfg v then extract_key_value cfg ps line
          else some (k, v)
        | _, _ => extract_key_value cfg ps line
      else extract_key_value cfg ps line
    | none => extract_key_value cfg ps line

/-- The secret-typing loop shared by `_build_secrets`, `_stream_keyword` and
`scan_current_stream` (scanner.py): the name of the first keyword group
whose patterns contain the key, else `"unknown"`. -/
def secret_type_for (cfg : Config) (key : Str) : Str :=
  go cfg.keywords
where
  go : List KeywordGroup → Str
  | [] => "unknown".toList
  | g :: gs => if g.patterns.contains key then g.name else go gs

/-- The scanner's shared index `file → key → SecretValue`, as an ordered
association list mirroring Python dict insertion order. -/
abbrev Index := List (Str × List (Str × SecretValue))

/-- Association-list lookup (Python `d[k]` / `k in d`). -/
def lookupA {β : Type} : List (Str × β) → Str → Option β
  | [], _ => none
  | (k', v) :: rest, k => if k' = k then some v else lookupA rest k

/-- Association-list update of an existing key in place (Python
`d[k] = v`); appends when the key is absent. -/
def updA {β : Type} : List (Str × β) → Str → β → List (Str × β)
  | [], k, v => [(k, v)]
  | (k', w) :: rest, k, v =>
    if k' = k then (k, v) :: rest else (k', w) :: updA rest k v

/-- The merge of one event into an existing `SecretValue` (the body of the
locked critical section of `_search_keyword`, scanner.py): append the commit
and author when not already present, then update `first_seen`/`last_seen`.
The returned flag is `false` when Python would raise (comparing `None` with
a string), which aborts the enclosing keyword task via its `except` clause;
the updates applied before the raise are kept. -/
def mergeSV (sv : SecretValue) (commit author date : Option Str) :
    SecretValue × Bool :=
  let sv1 := if sv.commits.contains commit then sv
    else { sv with commits := sv.commits ++ [commit] }
  let sv2 := if sv1.authors.contains author then sv1
    else { sv1 with authors := sv1.authors ++ [author] }
  match truthyO sv2.first_seen with
  | false => lastStep { sv2 with first_seen := date } date
  | true =>
    match date, sv2.first_seen with
    | some d, some fs =>
      lastStep (if strLt d fs then { sv2 with first_seen := some d } else sv2)
        (some d)
    | _, _ => (sv2, false)
where
  lastStep (sv : SecretValue) (date : Option Str) : SecretValue × Bool :=
    match truthyO sv.last_seen with
    | false => ({ sv with last_seen := date }, true)
    | true =>
      match date, sv.last_seen with
      | some d, some ls =>
        (if strLt ls d then { sv with last_seen := some d } else sv, true)
      | _, _ => (sv, false)

/-- The whole locked critical section of `_search_keyword` (scanner.py):
create the file dict and the key's `SecretValue` when absent, then merge the
event.  A fresh `SecretValue` starts with `first_seen = last_seen = ""`. -/
def mergeTuple (index : Index) (file key value masked : Str)
    (commit author date : Option Str) : Index × Bool :=
  let index1 := if (lookupA index file).isSome then index else index ++ [(file, [])]
  let fi := (lookupA index1 file).getD []
  let fi1 := if (lookupA fi key).isSome then fi
    else fi ++ [(key, ⟨value, masked, [], [], some [], some []⟩)]
  match lookupA fi1 key with
  | some sv =>
    let (sv', ok) := mergeSV sv commit author date
    (updA index1 file (updA fi1 key sv'), ok)
  | none => (index1, true)

/-- `COMMIT_START|sha|author|date` header parsing (scanner.py):
`line.split("|", 3)`, requiring at least 4 parts. -/
def parseCommitHeader (line : Str) : Option (Str × Str × Str) :=
  match splitCharLimit '|' 3 line with
  | _ :: p1 :: p2 :: p3 :: _ => some (p1, p2, p3)
  | _ => none

/-- `re.search(r' b/(.+)$', line)` (scanner.py): the text after the first
occurrence of `" b/"` that is followed by at least one character. -/
def searchBPath : Str → Option Str
  | [] => none
  | c :: rest =>
    if (" b/".toList).isPrefixOf (c :: rest) ∧ (c :: rest).drop 3 ≠ [] then
      some ((c :: rest).drop 3)
    else searchBPath rest

/-- The per-line state of `_search_keyword` (scanner.py): the parser's
current file/commit/author/date, the shared index, and whether the task is
still alive (its `except Exception` swallows a raise and ends the task). -/
structure MState where
  cf : Option Str
  cc : Option Str
  ca : Option Str
  cd : Option Str
  index : Index
  alive : Bool
deriving DecidableEq

/-- One line of `_search_keyword`'s loop over `git log` output
(scanner.py). -/
def search_line (cfg : Config) (pats : List CompiledPattern) (keyword : Str)
    (st : MState) (line : Str) : MState :=
  if st.alive = false then st
  else if ("COMMIT_START|".toList).isPrefixOf line then
    match parseCommitHeader line with
    | some (c, a, d) => { st with cc := some c, ca := some a, cd := some d }
    | none => st
  else if ("diff --git".toList).isPrefixOf line then
    match searchBPath line with
    | some p => { st with cf := some p }
    | none => st
  else if line.head? = some '+' ∧ ¬ ("+++".toList).isPrefixOf line then
    match st.cf with
    | some f =>
      if f.isEmpty then st
      else if containsSub keyword line then
        let content := line.drop 1
        match extract_key_value cfg pats content with
        | some (k, v) =>
          if k.isEmpty ∨ v.isEmpty then st
          else if should_ignore_file cfg f then st
          else
            let masked := mask_secret v
            let r := mergeTuple st.index f k v masked st.cc st.ca st.cd
            { st with index := r.1, alive := r.2 }
        | none => st
      else st
    | none => st
  else st

/-- `Scanner._search_keyword` (scanner.py): fold the driver's output lines
through `search_line`, starting with empty current-fields, and return the
updated shared index. -/
def search_keyword (cfg : Config) (pats : List CompiledPattern) (keyword : Str)
    (lines : List Str) (index : Index) : Index :=
  (lines.foldl (search_line cfg pats keyword) ⟨none, none, none, none, index, true⟩).index

/-- Insertion into a sorted list by a boolean `le`. -/
def insertLe {α : Type} (le : α → α → Bool) (x : α) : List α → List α
  | [] => [x]
  | y :: ys => if le x y then x :: y :: ys else y :: insertLe le x ys

/-- Sorting by a boolean `le` (Python `list.sort(key=...)`; the sort keys of
every use below are distinct, so any sorting algorithm gives the same
list). -/
def sortLe {α : Type} (le : α → α → Bool) : List α → List α
  | [] => []
  | x :: xs => insertLe le x (sortLe le xs)

/-- The sort key of `_build_secrets` (scanner.py): `(file, key)` ascending,
Python tuple comparison on strings. -/
def secretLe (a b : Secret) : Bool :=
  if strLt a.file b.file then true
  else if strLt b.file a.file then false
  else if strLt a.key b.key then true
  else if strLt b.key a.key then false
  else true

/-- `Scanner._build_secrets` (scanner.py): one `Secret` per `(file, key)`
entry of the index — its history is the singleton `[secret_value]` and
`change_count = total_occurrences = len(commits)` — sorted by
`(file, key)`. -/
def build_secrets (cfg : Config) (index : Index) : List Secret :=
  sortLe secretLe
    ((index.map (fun fp => fp.2.map (fun kv =>
      ({ file := fp.1, key := kv.1, type := secret_type_for cfg kv.1,
         change_count := kv.2.commits.length,
         total_occurrences := kv.2.commits.length,
         authors := kv.2.authors, history := [kv.2] } : Secret)))).flatten)

/-- `Scanner.scan` (scanner.py).  The per-keyword `git log` outputs are the
input `driver`; the keyword tasks are folded in submission order (one
schedule of the thread pool; the claims below are about this model). -/
def scan (cfg : Config) (pats : List CompiledPattern) (repo branch : Str)
    (driver : Str → List Str) : ScanResult :=
  let keywords := get_all_keywords cfg
  let index := keywords.foldl
    (fun idx kw => search_keyword cfg pats kw (driver kw) idx) []
  let secrets := build_secrets cfg index
  { repository := repo, branch := branch, secrets_found := secrets.length,
    total_values := (index.map (fun p => p.2.length)).sum, secrets := secrets }

end Scanner

namespace Scanner

/-- One file of the working-tree walk (scanner.py `scan_current` /
`scan_current_stream`): its base name (tested against the binary-extension
list), its path relative to the repository root, its size in bytes and its
decoded lines. -/
structure FileEntry where
  filename : Str
  rel_path : Str
  size : Nat
  lines : List Str
deriving DecidableEq

/-- `MAX_FILE_SIZE` (scanner.py): 1 MiB. -/
def MAX_FILE_SIZE : Nat := 1024 * 1024

/-- The file-level filters shared by `scan_current` and
`scan_current_stream` (scanner.py): ignored path, binary extension on the
base name, size cap. -/
def skip_current_file (cfg : Config) (fe : FileEntry) : Bool :=
  if should_ignore_file cfg fe.rel_path then true
  else if cfg.exclude_binary_extensions.any (fun ext => ext.isSuffixOf fe.filename) then true
  else if MAX_FILE_SIZE < fe.size then true
  else false

/-- The per-file body of `scan_current` (scanner.py): for each line and each
keyword contained in the line, extract once; a new `(rel_path, key)` gets a
`SecretValue` with empty commit/author lists and `first_seen = last_seen =
now`; an existing key is left untouched (no update branch exists in the
code). -/
def current_file_index (cfg : Config) (pats : List CompiledPattern)
    (keywords : List Str) (now : Str) (index : Index) (fe : FileEntry) : Index :=
  if skip_current_file cfg fe then index
  else
    fe.lines.foldl (fun idx line =>
      keywords.foldl (fun idx kw =>
        if containsSub kw line then
          match extract_key_value cfg pats line with
          | some (k, v) =>
            if k.isEmpty ∨ v.isEmpty then idx
            else
              let idx1 := if (lookupA idx fe.rel_path).isSome then idx
                else idx ++ [(fe.rel_path, [])]
              let fi := (lookupA idx1 fe.rel_path).getD []
              if (lookupA fi k).isSome then idx1
              else updA idx1 fe.rel_path
                (fi ++ [(k, ⟨v, mask_secret v, [], [], some now, some now⟩)])
          | none => idx
        else idx) idx) index

/-- `Scanner.scan_current` (scanner.py): walk the given files and build a
result over the collected index, with branch `"HEAD"`. -/
def scan_current (cfg : Config) (pats : List CompiledPattern) (repo now : Str)
    (files : List FileEntry) : ScanResult :=
  let keywords := get_all_keywords cfg
  let index := files.foldl (current_file_index cfg pats keywords now) []
  let secrets := build_secrets cfg index
  { repository := repo, branch := "HEAD".toList, secrets_found := secrets.length,
    total_values := (index.map (fun p => p.2.length)).sum, secrets := secrets }

/-- `Scanner.scan_both` (scanner.py): history result, then current result,
merged into a dict keyed by `file|key` with history precedence;
`total_values` is the plain sum of the two sub-results' totals. -/
def scan_both (cfg : Config) (pats : List CompiledPattern) (repo branch now : Str)
    (driver : Str → List Str) (files : List FileEntry) : ScanResult :=
  let r1 := scan cfg pats repo branch driver
  let r2 := scan_current cfg pats repo now files
  let m := r1.secrets.foldl
    (fun (m : List (Str × Secret)) s => updA m (s.file ++ '|' :: s.key) s) []
  let m := r2.secrets.foldl
    (fun (m : List (Str × Secret)) s =>
      if (lookupA m (s.file ++ '|' :: s.key)).isSome then m
      else m ++ [(s.file ++ '|' :: s.key, s)]) m
  let merged := sortLe secretLe (m.map (fun p => p.2))
  { repository := repo, branch := branch, secrets_found := merged.length,
    total_values := r1.total_values + r2.total_values, secrets := merged }

/-! ### Streaming (JSONL) pipeline -/

/-- The streaming dedup key `f"{file}|{key}|{value}"` of an entry
(scanner.py). -/
def entryKey (e : StreamEntry) : Str :=
  e.file ++ '|' :: (e.key ++ '|' :: e.value)

/-- The dedup-and-write step shared verbatim by `_stream_keyword`,
`scan_current_stream` and the two filters of `scan_both_stream`
(scanner.py): suppress the entry when its key is in `seen`, else add the key
and append the JSONL line. -/
def pushDedup (seen : List Str) (out : List StreamEntry) (e : StreamEntry) :
    List Str × List StreamEntry :=
  if seen.contains (entryKey e) then (seen, out)
  else (seen ++ [entryKey e], out ++ [e])

/-- The per-line state of `_stream_keyword` (scanner.py). -/
structure SState where
  cf : Option Str
  cc : Option Str
  ca : Option Str
  cd : Option Str
  seen : List Str
  out : List StreamEntry
deriving DecidableEq

/-- One line of `_stream_keyword`'s loop (scanner.py): same parsing as
`search_line`, but the sink is the deduplicated JSONL output. -/
def stream_line (cfg : Config) (pats : List CompiledPattern) (keyword : Str)
    (st : SState) (line : Str) : SState :=
  if ("COMMIT_START|".toList).isPrefixOf line then
    match parseCommitHeader line with
    | some (c, a, d) => { st with cc := some c, ca := some a, cd := some d }
    | none => st
  else if ("diff --git".toList).isPrefixOf line then
    match searchBPath line with
    | some p => { st with cf := some p }
    | none => st
  else if line.head? = some '+' ∧ ¬ ("+++".toList).isPrefixOf line then
    match st.cf with
    | some f =>
      if f.isEmpty then st
      else if containsSub keyword line then
        let content := line.drop 1
        match extract_key_value cfg pats content with
        | some (k, v) =>
          if k.isEmpty ∨ v.isEmpty then st
          else if should_ignore_file cfg f then st
          else
            let e : StreamEntry :=
              { file := f, key := k, value := v, masked_value := mask_secret v,
                type := secret_type_for cfg k, commit := st.cc, author := st.ca,
                date := st.cd }
            let r := pushDedup st.seen st.out e
            { st with seen := r.1, out := r.2 }
        | none => st
      else st
    | none => st
  else st

/-- `Scanner._stream_keyword` (scanner.py): fold the driver's output lines,
threading the dedup set and the output file. -/
def stream_keyword (cfg : Config) (pats : List CompiledPattern) (keyword : Str)
    (lines : List Str) (seen : List Str) (out : List StreamEntry) :
    List Str × List StreamEntry :=
  let r := lines.foldl (stream_line cfg pats keyword) ⟨none, none, none, none, seen, out⟩
  (r.seen, r.out)

/-- `Scanner.scan_stream` (scanner.py): keywords processed sequentially, one
`seen` set carried across all of them. -/
def scan_stream (cfg : Config) (pats : List CompiledPattern)
    (driver : Str → List Str) : List StreamEntry :=
  ((get_all_keywords cfg).foldl
    (fun (acc : List Str × List StreamEntry) kw =>
      stream_keyword cfg pats kw (driver kw) acc.1 acc.2) ([], [])).2

/-- The per-file body of `scan_current_stream` (scanner.py): same filters
and keyword loop as `scan_current`, but events go through the dedup set into
the JSONL output, with `commit = "HEAD"`, empty author and `date = now`. -/
def current_stream_file (cfg : Config) (pats : List CompiledPattern)
    (keywords : List Str) (now : Str) (acc : List Str × List StreamEntry)
    (fe : FileEntry) : List Str × List StreamEntry :=
  if skip_current_file cfg fe then acc
  else
    fe.lines.foldl (fun acc line =>
      keywords.foldl (fun (acc : List Str × List StreamEntry) kw =>
        if containsSub kw line then
          match extract_key_value cfg pats line with
          | some (k, v) =>
            if k.isEmpty ∨ v.isEmpty then acc
            else
              let e : StreamEntry :=
                { file := fe.rel_path, key := k, value := v,
                  masked_value := mask_secret v, type := secret_type_for cfg k,
                  commit := some "HEAD".toList, author := some [],
                  date := some now }
              pushDedup acc.1 acc.2 e
          | none => acc
        else acc) acc) acc

/-- `Scanner.scan_current_stream` (scanner.py). -/
def scan_current_stream (cfg : Config) (pats : List CompiledPattern)
    (now : Str) (files : List FileEntry) : List StreamEntry :=
  (files.foldl (current_stream_file cfg pats (get_all_keywords cfg) now) ([], [])).2

/-- `Scanner.scan_both_stream` (scanner.py): stream history to a temp file,
filter it through a fresh dedup set into the output, then stream the working
tree to the temp file and filter it through the same set.  The temp file
holds one JSON object per line, so re-reading it yields the entries
unchanged; the two filter loops are therefore one fold of `pushDedup` over
the history entries followed by the current entries. -/
def scan_both_stream (cfg : Config) (pats : List CompiledPattern)
    (driver : Str → List Str) (now : Str) (files : List FileEntry) :
    List StreamEntry :=
  let hist := scan_stream cfg pats driver
  let cur := scan_current_stream cfg pats now files
  ((hist ++ cur).foldl
    (fun (acc : List Str × List StreamEntry) e => pushDedup acc.1 acc.2 e)
    ([], [])).2

end Scanner

/-! ## cleaner.py -/

namespace Cleaner

/-- The replacement literal `***REMOVED***` (cleaner.py). -/
def removedLit : Str := "***REMOVED***".toList

/-- The characters escaped by Python `re.escape` (all ASCII
non-word characters used in regex syntax or whitespace). -/
def reSpecialChars : List Char :=
  ['(', ')', '[', ']', '{', '}', '?', '*', '+', '-', '|', '^', '$', '\\',
   '.', '&', '~', '#', ' ', '\t', '\n', '\r', '\x0b', '\x0c']

/-- Python `re.escape` (used by `_group_secrets_into_patterns`,
cleaner.py). -/
def re_escape (s : Str) : Str :=
  (s.map (fun c => if reSpecialChars.contains c then ['\\', c] else [c])).flatten

/-- `Cleaner._group_secrets_into_patterns` (cleaner.py): escape each secret
and join them with `|` into alternations of at most 100. -/
def group_secrets_into_patterns (secrets : List Str) : List Str :=
  let r := secrets.foldl
    (fun (acc : List Str × List Str) s =>
      let batch := acc.2 ++ [re_escape s]
      if 100 ≤ batch.length then (acc.1 ++ [List.intercalate ['|'] batch], [])
      else (acc.1, batch))
    ([], [])
  if r.2 ≠ [] then r.1 ++ [List.intercalate ['|'] r.2] else r.1

/-- The per-file replacement loop of `_clean_current_files` (cleaner.py):
`content.replace(secret, "***REMOVED***")` for each secret, in list
order. -/
def clean_file_content (secrets : List Str) (content : Str) : Str :=
  secrets.foldl (fun c s => pyReplace c s removedLit) content

/-- `Cleaner._clean_current_files` (cleaner.py), restricted to its pure
content transformation: each file's content is rewritten by
`clean_file_content` and the file is counted as modified when the content
changed.  The files are the allowed files that exist on disk, with their
contents. -/
def clean_current_files (secrets : List Str) :
    List (Str × Str) → Nat × List (Str × Str)
  | [] => (0, [])
  | (p, c) :: rest =>
    let newC := clean_file_content secrets c
    let r := clean_current_files secrets rest
    if newC = c then (r.1, (p, c) :: r.2)
    else (r.1 + 1, (p, newC) :: r.2)

/-- `CleanOptions` (cleaner.py); `on_progress` is omitted. -/
structure CleanOptions where
  tool : Str
  source : Str
  file_paths : List Str
  dry_run : Bool
  force : Bool
  no_backup : Bool
deriving DecidableEq

/-- `CleanResult` (cleaner.py), with the dataclass defaults. -/
structure CleanResult where
  tool : Str := []
  source : Str := []
  secrets_removed : Nat := 0
  patterns_used : Nat := 0
  files_modified : Nat := 0
  success : Bool := false
  message : Str := []
  backup_branch : Str := []
  dry_run : Bool := false
  preview_secrets : Option (List Str) := none
deriving DecidableEq

/-- The repository state touched by `Cleaner.clean`: its branches, its
working-tree files (path, content) and an abstract revision counter
standing for the commit history rewritten by the external backends. -/
structure RepoState where
  branches : List Str
  files : List (Str × Str)
  histRev : Nat
deriving DecidableEq

/-- The environment of external effects invoked by `Cleaner.clean`
(cleaner.py): which backends answer their `--version` probe, the process id
used for the backup branch name, whether `git branch` succeeds, and the
(unspecified) semantics of the history-rewrite backends and of the final
reflog-expire/gc pair, as state transformers that may fail. -/
structure CleanEnv where
  filter_repo_available : Bool
  bfg_available : Bool
  pid : Nat
  branch_create_ok : Bool
  history_rewrite : Str → List Str → RepoState → Except Str RepoState
  gc_run : RepoState → Except Str RepoState

/-- `Cleaner._select_best_tool` / `get_available_tools` (cleaner.py):
`filter-repo`, then `bfg`, then the always-available `filter-branch`. -/
def select_best_tool (env : CleanEnv) : Str :=
  if env.filter_repo_available then "filter-repo".toList
  else if env.bfg_available then "bfg".toList
  else "filter-branch".toList

/-- Decimal rendering of a number, for the messages built with f-strings. -/
def natStr (n : Nat) : Str := (toString n).toList

/-- `Cleaner.clean` (cleaner.py).  Subprocess calls are mediated by `env`;
the working-tree pass applies `clean_current_files` to the allowed files
(the caller-supplied paths, defaulting to every tracked file). -/
def clean (env : CleanEnv) (st : RepoState) (secrets : List Str)
    (opts : CleanOptions) : CleanResult × RepoState :=
  if secrets = [] then
    ({ success := true, message := "No secrets to clean".toList }, st)
  else
    let source := if opts.source = [] then "both".toList else opts.source
    let tool := if opts.tool = "auto".toList then select_best_tool env else opts.tool
    let patterns := group_secrets_into_patterns secrets
    let base : CleanResult :=
      { source := source, dry_run := opts.dry_run, tool := tool,
        patterns_used := patterns.length }
    if opts.dry_run then
      ({ base with
          preview_secrets := some ((secrets.take 10).map mask_secret),
          success := true,
          message := "Dry run: would remove ".toList ++ natStr secrets.length ++
            " secrets using ".toList ++ tool }, st)
    else
      let backup_name := "backup-before-clean-".toList ++ natStr env.pid
      let backupStep : Except CleanResult (CleanResult × RepoState) :=
        if opts.no_backup then Except.ok (base, st)
        else if env.branch_create_ok then
          Except.ok ({ base with backup_branch := backup_name },
            { st with branches := st.branches ++ [backup_name] })
        else
          Except.error { base with
            success := false
            message := "Failed to create backup branch".toList }
      match backupStep with
      | Except.error r => (r, st)
      | Except.ok (res, st1) =>
        let (st2, res2) :=
          if source = "current".toList ∨ source = "both".toList then
            let allowed := if opts.file_paths = [] then st1.files.map (fun p => p.1)
              else opts.file_paths
            let targets := st1.files.filter (fun p => allowed.contains p.1)
            let r := clean_current_files secrets targets
            let newFiles := st1.files.map (fun p =>
              match Scanner.lookupA r.2 p.1 with
              | some c => (p.1, c)
              | none => p)
            ({ st1 with files := newFiles }, { res with files_modified := r.1 })
          else (st1, res)
        if source = "history".toList ∨ source = "both".toList then
          match env.history_rewrite tool
              (if tool = "bfg".toList then secrets else patterns) st2 with
          | Except.error msg =>
            ({ res2 with
                success := false
                message := ("Failed to clean history with ".toList ++ tool ++
                  ": ".toList ++ msg) }, st2)
          | Except.ok st3 =>
            match env.gc_run st3 with
            | Except.error msg =>
              ({ res2 with
                  success := false
                  message := "Failed to clean up git: ".toList ++ msg }, st3)
            | Except.ok st4 =>
              ({ res2 with
                  success := true
                  secrets_removed := secrets.length
                  message := "Successfully cleaned ".toList ++
                    natStr secrets.length ++ " secrets from ".toList ++ source },
                st4)
        else
          match env.gc_run st2 with
          | Except.error msg =>
            ({ res2 with
                success := false
                message := "Failed to clean up git: ".toList ++ msg }, st2)
          | Except.ok st4 =>
            ({ res2 with
                success := true
                secrets_removed := secrets.length
                message := "Successfully cleaned ".toList ++
                  natStr secrets.length ++ " secrets from ".toList ++ source },
              st4)

end Cleaner

/-! ## Specification-side definitions (for refinement claims) -/

/-- The specification's description of extraction for one pattern: the
`(key, value)` pair the pattern yields on the line, provided the value is
accepted by `should_ignore_value`; `none` when the pattern does not match,
has too few groups, or its value is rejected. -/
def acceptedPair (cfg : Config) (line : Str) (p : Scanner.CompiledPattern) :
    Option (Str × Str) :=
  match p.search line with
  | none => none
  | some groups =>
    if p.value_group ≤ groups.length then
      match groups.get? 0, groups.get? (p.value_group - 1) with
      | some k, some v =>
        if should_ignore_value cfg v then none else some (k, v)
      | _, _ => none
    else none

/-- The specification's description of `extract_key_value`: the first
pattern, in declared order, whose value is accepted wins; rejection of one
pattern's value does not fail the line. -/
def extract_spec (cfg : Config) (pats : List Scanner.CompiledPattern)
    (line : Str) : Option (Str × Str) :=
  pats.findSome? (acceptedPair cfg line)

/-! ## Concrete test fixtures for the end-to-end claims

A test configuration: one extraction pattern standing for the compiled
regex `^([^=]+)=(.+)$` — split the line at its first `=`, both sides
non-empty — which is how the counterexample repositories' lines are
matched. -/

/-- The `search` function of the test extraction pattern: capture groups
`[key, value]` when the line contains `=` with text on both sides. -/
def simpleEqSearch (line : Str) : Option (List Str) :=
  match breakAtChar '=' line with
  | none => none
  | some (k, v) => if k ≠ [] ∧ v ≠ [] then some [k, v] else none

/-- The compiled-pattern list of the test configuration. -/
def patsT : List Scanner.CompiledPattern :=
  [{ name := "key_equals_value".toList, search := simpleEqSearch, value_group := 2 }]

/-- The settings of the test configuration (the defaults of config.py). -/
def settingsT : Settings :=
  { min_secret_length := 3, max_secret_length := 500, case_sensitive := false }

/-- Test configuration with the single keyword `api_key`. -/
def cfgApi : Config :=
  { keywords := [{ name := "api_key".toList, patterns := ["api_key".toList] }],
    ignored_values := [], ignored_files := [], exclude_binary_extensions := [],
    settings := settingsT }

/-- Driver output for the multi-value scenario of S4: two commits rewriting
`api_key` from `AAAAAA` to `BBBBBB` in `.env`. -/
def driverS4 : Str → List Str := fun _ =>
  ["COMMIT_START|c1|alice|2024-01-01T00:00:00+00:00".toList,
   "diff --git a/.env b/.env".toList,
   "+api_key=AAAAAA".toList,
   "COMMIT_START|c2|bob|2024-01-02T00:00:00+00:00".toList,
   "diff --git a/.env b/.env".toList,
   "+api_key=BBBBBB".toList]

/-- Driver output with a content line after a file header but before any
commit header. -/
def driverNoCommit : Str → List Str := fun _ =>
  ["diff --git a/.env b/.env".toList,
   "+api_key=SECRET99".toList]

/-- Driver output with one history event for `(.env, api_key)`. -/
def driverOne : Str → List Str := fun _ =>
  ["COMMIT_START|c1|alice|2024-01-01T00:00:00+00:00".toList,
   "diff --git a/.env b/.env".toList,
   "+api_key=AAAAAA".toList]

/-- One working-tree file `.env` containing an `api_key` line (with a value
different from the history's). -/
def filesEnv : List Scanner.FileEntry :=
  [{ filename := ".env".toList, rel_path := ".env".toList, size := 20,
     lines := ["api_key=CCCCCC".toList] }]

/-- Test configuration with the single keyword `c` (used by the streaming
collision scenarios). -/
def cfgC : Config :=
  { keywords := [{ name := "g".toList, patterns := ["c".toList] }],
    ignored_values := [], ignored_files := [], exclude_binary_extensions := [],
    settings := settingsT }

/-- Driver output carrying two distinct `(file, key, value)` triples whose
dedup strings coincide: `("a|b", "c", SECRET99)` then
`("a", "b|c", SECRET99)`. -/
def driverCollision : Str → List Str := fun _ =>
  ["COMMIT_START|c1|alice|2024-01-01T00:00:00+00:00".toList,
   "diff --git a/a|b b/a|b".toList,
   "+c=SECRET99".toList,
   "diff --git a/a b/a".toList,
   "+b|c=SECRET99".toList]

/-- The tail of `driverCollision`: only the second triple's event. -/
def driverCollisionTail : Str → List Str := fun _ =>
  ["COMMIT_START|c1|alice|2024-01-01T00:00:00+00:00".toList,
   "diff --git a/a b/a".toList,
   "+b|c=SECRET99".toList]

/-- Test configuration for the case-sensitive ignored-values claim: the
single (upper-case) ignored entry `ABC`, matched case-sensitively. -/
def cfgCS : Config :=
  { keywords := [], ignored_values := ["ABC".toList], ignored_files := [],
    exclude_binary_extensions := [],
    settings := { min_secret_length := 3, max_secret_length := 500,
                  case_sensitive := true } }

/-! ## Helper lemmas -/

theorem foldl_pres {σ α : Type} (P : σ → Prop) (f : σ → α → σ)
    (h : ∀ s a, P s → P (f s a)) :
    ∀ (l : List α) (s : σ), P s → P (l.foldl f s) := by
  intro l
  induction l with
  | nil => intro s hs; exact hs
  | cons a l ih => intro s hs; exact ih (f s a) (h s a hs)

theorem length_insertLe {α : Type} (le : α → α → Bool) (x : α) :
    ∀ l : List α, (Scanner.insertLe le x l).length = l.length + 1 := by
  intro l
  induction l with
  | nil => rfl
  | cons y ys ih =>
    unfold Scanner.insertLe
    split
    · simp
    · simp [ih]

theorem length_sortLe {α : Type} (le : α → α → Bool) :
    ∀ l : List α, (Scanner.sortLe le l).length = l.length := by
  intro l
  induction l with
  | nil => rfl
  | cons x xs ih => simp [Scanner.sortLe, length_insertLe, ih]

theorem mem_insertLe {α : Type} (le : α → α → Bool) (x a : α) :
    ∀ l : List α, a ∈ Scanner.insertLe le x l ↔ a = x ∨ a ∈ l := by
  intro l
  induction l with
  | nil => simp [Scanner.insertLe]
  | cons y ys ih =>
    unfold Scanner.insertLe
    split
    · simp [or_comm, or_assoc, or_left_comm]
    · simp [ih, or_comm, or_assoc, or_left_comm]

theorem mem_sortLe {α : Type} (le : α → α → Bool) (a : α) :
    ∀ l : List α, a ∈ Scanner.sortLe le l ↔ a ∈ l := by
  intro l
  induction l with
  | nil => simp [Scanner.sortLe]
  | cons x xs ih => simp [Scanner.sortLe, mem_insertLe, ih]

theorem isPrefixOf_iff_append :
    ∀ a s : Str, a.isPrefixOf s = true ↔ ∃ t, s = a ++ t := by
  intro a
  induction a with
  | nil =>
    intro s
    constructor
    · intro _; exact ⟨s, rfl⟩
    · intro _; cases s <;> rfl
  | cons c cs ih =>
    intro s
    cases s with
    | nil =>
      simp [List.isPrefixOf]
    | cons d ds =>
      simp only [List.isPrefixOf, Bool.and_eq_true, beq_iff_eq, ih ds,
        List.cons_append, List.cons.injEq]
      constructor
      · rintro ⟨h1, t, h2⟩; exact ⟨t, h1.symm, h2⟩
      · rintro ⟨t, h1, h2⟩; exact ⟨h1.symm, t, h2⟩

theorem containsSub_iff :
    ∀ a s : Str, containsSub a s = true ↔ ∃ t u, s = t ++ (a ++ u) := by
  intro a s
  induction s with
  | nil =>
    simp only [containsSub, isPrefixOf_iff_append]
    constructor
    · rintro ⟨t, h⟩; exact ⟨[], t, h⟩
    · rintro ⟨t, u, h⟩
      rcases List.append_eq_nil.mp h.symm with ⟨h1, h2⟩
      exact ⟨u, by simp [h1] at h ⊢; exact h⟩
  | cons c rest ih =>
    unfold containsSub
    split
    case isTrue hpre =>
      simp only [true_iff]
      rcases (isPrefixOf_iff_append a (c :: rest)).mp hpre with ⟨t, h⟩
      exact ⟨[], t, by simpa using h⟩
    case isFalse hpre =>
      rw [ih]
      constructor
      · rintro ⟨t, u, h⟩; exact ⟨c :: t, u, by simp [h]⟩
      · rintro ⟨t, u, h⟩
        cases t with
        | nil =>
          exfalso
          apply hpre
          rw [isPrefixOf_iff_append]
          exact ⟨u, by simpa using h⟩
        | cons t0 ts =>
          refine ⟨ts, u, ?_⟩
          simpa using (List.cons.injEq .. ▸ h).2

/-! ## Claim C2: the masked-value formula -/

/-- C2 counterexample: the claim asserts that every masking function of the
program renders a 21-character value as first-two + 16 asterisks + last-two;
the analyzer's `mask_secret` does not (it emits 17 asterisks). -/
theorem analyzer_mask_uncapped_at_21 :
    Analyzer.mask_secret "ABCDEFGHIJKLMNOPQRSTU".toList ≠
      specMaskedValue "ABCDEFGHIJKLMNOPQRSTU".toList := by decide

/-- C2 amended: the scanner's and the cleaner's `mask_secret` realize the
specification's formula (`"****"` for `|v| ≤ 4`, else first two +
`min(|v|-4, 16)` asterisks + last two) for every value; the analyzer's
`mask_secret` has no cap and agrees with the formula exactly when
`|v| ≤ 20`. -/
theorem mask_secret_characterization :
    ∀ v : Str,
      Scanner.mask_secret v = specMaskedValue v ∧
      Cleaner.mask_secret v = specMaskedValue v ∧
      (Analyzer.mask_secret v = specMaskedValue v ↔ v.length ≤ 20) := by
  intro v
  refine ⟨rfl, rfl, ?_⟩
  unfold Analyzer.mask_secret specMaskedValue
  by_cases h4 : v.length ≤ 4
  · have h20 : v.length ≤ 20 := by omega
    simp [h4, h20]
  · simp only [h4, if_false]
    by_cases h20 : v.length ≤ 20
    · have : min (v.length - 4) 16 = v.length - 4 := by omega
      simp [this, h20]
    · have hmin : min (v.length - 4) 16 = 16 := by omega
      simp only [hmin, h20, iff_false]
      intro heq
      have := congrArg List.length heq
      simp only [List.length_append, List.length_take, List.length_replicate,
        List.length_drop] at this
      omega

/-! ## Claim C6: extraction order and continue-on-reject -/

/-- C6: `extract_key_value` tries the compiled patterns in declared order
and returns the pair of the first pattern whose captured value is accepted;
a pattern whose value is rejected by `should_ignore_value` (or which does
not match, or has too few groups) sends the search to the next pattern, and
`none` is returned only when no pattern yields an accepted pair.  This is
the equivalence with the specification-side `extract_spec`
(`findSome?` of `acceptedPair` over the pattern list). -/
theorem extract_key_value_first_accepted :
    ∀ (cfg : Config) (pats : List Scanner.CompiledPattern) (line : Str),
      Scanner.extract_key_value cfg pats line = extract_spec cfg pats line := by
  intro cfg pats line
  induction pats with
  | nil => rfl
  | cons p ps ih =>
    unfold Scanner.extract_key_value
    cases hs : p.search line with
    | none => simp [extract_spec, List.findSome?_cons, acceptedPair, hs, ih]
    | some groups =>
      by_cases hlen : p.value_group ≤ groups.length
      · cases hg0 : groups[0]? with
        | none =>
          simp [extract_spec, List.findSome?_cons, acceptedPair, hs, hlen,
            hg0, ih, List.get?_eq_getElem?]
        | some k =>
          cases hgv : groups[p.value_group - 1]? with
          | none =>
            simp [extract_spec, List.findSome?_cons, acceptedPair, hs, hlen,
              hg0, hgv, ih, List.get?_eq_getElem?]
          | some v =>
            by_cases hig : should_ignore_value cfg v
            · simp [extract_spec, List.findSome?_cons, acceptedPair, hs, hlen,
                hg0, hgv, hig, ih, List.get?_eq_getElem?]
            · simp [extract_spec, List.findSome?_cons, acceptedPair, hs, hlen,
                hg0, hgv, hig, List.get?_eq_getElem?]
      · simp [extract_spec, List.findSome?_cons, acceptedPair, hs, hlen, ih]

/-! ## Claim C4: ignored-values containment and case sensitivity -/

/-- C4 counterexample: with `caseSensitive = true` and ignored entry `ABC`,
the value `xxABCyy` contains the entry exactly as written, yet
`should_ignore_value` accepts it — the code tests the entry against the
lowercased value. -/
theorem ignored_value_case_sensitive_miss :
    (∃ t u, "xxABCyy".toList = t ++ ("ABC".toList ++ u)) ∧
    "ABC".toList ∈ cfgCS.ignored_values ∧
    cfgCS.settings.case_sensitive = true ∧
    should_ignore_value cfgCS "xxABCyy".toList = false :=
  ⟨⟨"xx".toList, "yy".toList, by decide⟩, by decide, by decide, by decide⟩

/-- C4 amended: for a value that passes the length, code-shape, URL and
common-keyword rules, `should_ignore_value` rejects it exactly when some
`ignoredValues` entry — taken as written when `caseSensitive` and lowercased
otherwise — occurs in the *lowercased* value.  With `caseSensitive = true`
an entry containing an uppercase letter therefore never matches. -/
theorem should_ignore_value_ignored_entry_iff :
    ∀ (cfg : Config) (v : Str),
      ¬ (v.length < cfg.settings.min_secret_length ∨
          cfg.settings.max_secret_length < v.length) →
      looks_like_code v = false →
      url_prefixes.any (fun p => p.isPrefixOf (lowerStr v)) = false →
      common_keywords.any (fun kw => lowerStr v = kw) = false →
      (should_ignore_value cfg v = true ↔
        ∃ e ∈ cfg.ignored_values, ∃ t u,
          lowerStr v = t ++
            ((if cfg.settings.case_sensitive then e else lowerStr e) ++ u)) := by
  intro cfg v h1 h2 h3 h4
  unfold should_ignore_value
  rw [if_neg h1, if_neg (by simp [h2])]
  simp only [h3, Bool.false_eq_true, if_false, h4]
  by_cases hany : cfg.ignored_values.any (fun ig =>
      containsSub (if cfg.settings.case_sensitive then ig else lowerStr ig)
        (lowerStr v)) = true
  · simp only [hany, if_true, true_iff]
    rcases List.any_eq_true.mp hany with ⟨e, he, hce⟩
    rcases (containsSub_iff _ _).mp hce with ⟨t, u, hu⟩
    exact ⟨e, he, t, u, hu⟩
  · simp only [hany, if_false, Bool.false_eq_true, false_iff]
    rintro ⟨e, he, t, u, hu⟩
    exact hany (List.any_eq_true.mpr ⟨e, he, (containsSub_iff _ _).mpr ⟨t, u, hu⟩⟩)

/-- C4 witness: the amended equivalence instantiated at `cfgCS` and the
value `xxABCyy` (all side conditions hold there). -/
theorem should_ignore_value_ignored_entry_iff_witness :
    (¬ (("xxABCyy".toList).length < cfgCS.settings.min_secret_length ∨
        cfgCS.settings.max_secret_length < ("xxABCyy".toList).length)) ∧
    looks_like_code "xxABCyy".toList = false ∧
    (should_ignore_value cfgCS "xxABCyy".toList = true ↔
      ∃ e ∈ cfgCS.ignored_values, ∃ t u,
        lowerStr "xxABCyy".toList = t ++
          ((if cfgCS.settings.case_sensitive then e else lowerStr e) ++ u)) :=
  ⟨by decide, by decide,
    should_ignore_value_ignored_entry_iff cfgCS "xxABCyy".toList
      (by decide) (by decide) (by decide) (by decide)⟩

/-! ## Claim C8: idempotence of the working-tree clean pass -/

theorem replaceFuel_of_not_sub (o : Char) (old' new : Str) :
    ∀ (fuel : Nat) (s : Str), s.length ≤ fuel →
      containsSub (o :: old') s = false → replaceFuel o old' new fuel s = s := by
  intro fuel
  induction fuel with
  | zero => intro s _ _; rfl
  | succ f ihf =>
    intro s hl hc
    cases s with
    | nil => rfl
    | cons c rest =>
      unfold containsSub at hc
      split at hc
      · exact absurd hc (by simp)
      · rename_i hpre
        unfold replaceFuel
        rw [if_neg hpre]
        have : rest.length ≤ f := by simpa using Nat.le_of_succ_le_succ hl
        rw [ihf rest this hc]

theorem pyReplace_of_not_sub :
    ∀ (s old new : Str), containsSub old s = false → pyReplace s old new = s := by
  intro s old new hc
  cases old with
  | nil => cases s <;> simp [containsSub, List.isPrefixOf] at hc
  | cons o old' => exact replaceFuel_of_not_sub o old' new s.length s le_rfl hc

theorem clean_file_content_of_clean :
    ∀ (secrets : List Str) (c : Str),
      (∀ s ∈ secrets, containsSub s c = false) →
      Cleaner.clean_file_content secrets c = c := by
  intro secrets
  induction secrets with
  | nil => intro c _; rfl
  | cons s ss ih =>
    intro c h
    unfold Cleaner.clean_file_content
    rw [List.foldl_cons,
      pyReplace_of_not_sub c s Cleaner.removedLit (h s (List.mem_cons_self s ss))]
    exact ih c (fun x hx => h x (List.mem_cons_of_mem s hx))

theorem clean_current_files_of_clean :
    ∀ (secrets : List Str) (files : List (Str × Str)),
      (∀ pc ∈ files, ∀ s ∈ secrets, containsSub s pc.2 = false) →
      Cleaner.clean_current_files secrets files = (0, files) := by
  intro secrets files
  induction files with
  | nil => intro _; rfl
  | cons pc rest ih =>
    intro h
    obtain ⟨p, c⟩ := pc
    unfold Cleaner.clean_current_files
    rw [clean_file_content_of_clean secrets c
      (fun s hs => h (p, c) (List.mem_cons_self _ _) s hs)]
    rw [ih (fun x hx s hs => h x (List.mem_cons_of_mem _ hx) s hs)]
    simp

/-- C8 counterexample: the pass is not idempotent for every secrets list —
with the single (non-empty) secret `REM` and a file containing `REM`, the
once-cleaned content `***REMOVED***` still contains `REM`, so a second run
rewrites the file again. -/
theorem clean_twice_differs_on_REM :
    (Cleaner.clean_current_files ["REM".toList]
        (Cleaner.clean_current_files ["REM".toList]
          [(".env".toList, "REM".toList)]).2).2 ≠
      (Cleaner.clean_current_files ["REM".toList]
        [(".env".toList, "REM".toList)]).2 := by decide

/-- C8 amended: running the working-tree pass a second time leaves every
file unchanged (and reports zero modified files) provided no secret occurs
in the once-cleaned contents — which is the case whenever no secret overlaps
the literal `***REMOVED***` or its boundary with the surrounding text, but
not in general. -/
theorem clean_current_files_idempotent_when_clean :
    ∀ (secrets : List Str) (files : List (Str × Str)),
      (∀ pc ∈ (Cleaner.clean_current_files secrets files).2, ∀ s ∈ secrets,
        containsSub s pc.2 = false) →
      Cleaner.clean_current_files secrets
          (Cleaner.clean_current_files secrets files).2 =
        (0, (Cleaner.clean_current_files secrets files).2) := by
  intro secrets files h
  exact clean_current_files_of_clean secrets _ h

/-- C8 witness: the amended idempotence at a concrete run (secret `abc`,
file content `xabcx`). -/
theorem clean_current_files_idempotent_when_clean_witness :
    (∀ pc ∈ (Cleaner.clean_current_files ["abc".toList]
        [("f".toList, "xabcx".toList)]).2, ∀ s ∈ ["abc".toList],
      containsSub s pc.2 = false) ∧
    Cleaner.clean_current_files ["abc".toList]
        (Cleaner.clean_current_files ["abc".toList]
          [("f".toList, "xabcx".toList)]).2 =
      (0, (Cleaner.clean_current_files ["abc".toList]
        [("f".toList, "xabcx".toList)]).2) :=
  ⟨by decide,
    clean_current_files_idempotent_when_clean ["abc".toList]
      [("f".toList, "xabcx".toList)] (by decide)⟩

/-! ## Claim C9: dry-run performs no mutation -/

/-- C9: with a non-empty secrets list and `dryRun = true`, `clean` returns
`success = true`, the masked previews of the first at most ten secrets, a
message naming the selected tool and the secret count, no backup branch,
zero modified files — and the repository state (branches, files, history) is
returned unchanged. -/
theorem clean_dry_run_no_mutation :
    ∀ (env : Cleaner.CleanEnv) (st : Cleaner.RepoState) (secrets : List Str)
      (opts : Cleaner.CleanOptions),
      secrets ≠ [] → opts.dry_run = true →
      (Cleaner.clean env st secrets opts).2 = st ∧
      (Cleaner.clean env st secrets opts).1.success = true ∧
      (Cleaner.clean env st secrets opts).1.dry_run = true ∧
      (Cleaner.clean env st secrets opts).1.preview_secrets =
        some ((secrets.take 10).map Cleaner.mask_secret) ∧
      (Cleaner.clean env st secrets opts).1.message =
        "Dry run: would remove ".toList ++ Cleaner.natStr secrets.length ++
          " secrets using ".toList ++
          (if opts.tool = "auto".toList then Cleaner.select_best_tool env
            else opts.tool) ∧
      (Cleaner.clean env st secrets opts).1.backup_branch = [] ∧
      (Cleaner.clean env st secrets opts).1.files_modified = 0 ∧
      (Cleaner.clean env st secrets opts).1.secrets_removed = 0 := by
  intro env st secrets opts hs hd
  unfold Cleaner.clean
  rw [if_neg hs]
  simp [hd]

/-- C9 witness: the dry run at a concrete environment, repository and
three-secret list. -/
theorem clean_dry_run_no_mutation_witness :
    (["abcdef".toList, "ghijkl".toList, "mnopqr".toList] ≠ ([] : List Str)) ∧
    (Cleaner.clean
      { filter_repo_available := false, bfg_available := false, pid := 7,
        branch_create_ok := true,
        history_rewrite := fun _ _ s => Except.ok s,
        gc_run := fun s => Except.ok s }
      { branches := ["main".toList], files := [("a".toList, "x".toList)],
        histRev := 0 }
      ["abcdef".toList, "ghijkl".toList, "mnopqr".toList]
      { tool := "auto".toList, source := "both".toList, file_paths := [],
        dry_run := true, force := false, no_backup := false }).2 =
      { branches := ["main".toList], files := [("a".toList, "x".toList)],
        histRev := 0 } :=
  ⟨by decide,
    (clean_dry_run_no_mutation
      { filter_repo_available := false, bfg_available := false, pid := 7,
        branch_create_ok := true,
        history_rewrite := fun _ _ s => Except.ok s,
        gc_run := fun s => Except.ok s }
      { branches := ["main".toList], files := [("a".toList, "x".toList)],
        histRev := 0 }
      ["abcdef".toList, "ghijkl".toList, "mnopqr".toList]
      { tool := "auto".toList, source := "both".toList, file_paths := [],
        dry_run := true, force := false, no_backup := false }
      (by decide) rfl).1⟩

/-! ## Claim C5: content lines before the headers -/

theorem search_line_no_diff (cfg : Config) (pats : List Scanner.CompiledPattern)
    (kw : Str) (st : Scanner.MState) (l : Str)
    (h1 : st.cf = none)
    (h2 : ("diff --git".toList).isPrefixOf l = false) :
    (Scanner.search_line cfg pats kw st l).cf = none ∧
    (Scanner.search_line cfg pats kw st l).index = st.index := by
  unfold Scanner.search_line
  split
  · exact ⟨h1, rfl⟩
  · split
    · split
      · exact ⟨h1, rfl⟩
      · exact ⟨h1, rfl⟩
    · rw [if_neg (by rw [h2]; exact Bool.false_ne_true)]
      split
      · rw [h1]
        exact ⟨h1, rfl⟩
      · exact ⟨h1, rfl⟩

theorem search_fold_no_diff (cfg : Config) (pats : List Scanner.CompiledPattern)
    (kw : Str) :
    ∀ (lines : List Str) (st : Scanner.MState), st.cf = none →
      (∀ l ∈ lines, ("diff --git".toList).isPrefixOf l = false) →
      (lines.foldl (Scanner.search_line cfg pats kw) st).index = st.index := by
  intro lines
  induction lines with
  | nil => intro st _ _; rfl
  | cons l ls ih =>
    intro st h1 hl
    rw [List.foldl_cons]
    obtain ⟨hcf, hidx⟩ :=
      search_line_no_diff cfg pats kw st l h1 (hl l (List.mem_cons_self _ _))
    rw [ih _ hcf (fun x hx => hl x (List.mem_cons_of_mem _ hx)), hidx]

theorem stream_line_no_diff (cfg : Config) (pats : List Scanner.CompiledPattern)
    (kw : Str) (st : Scanner.SState) (l : Str)
    (h1 : st.cf = none)
    (h2 : ("diff --git".toList).isPrefixOf l = false) :
    (Scanner.stream_line cfg pats kw st l).cf = none ∧
    (Scanner.stream_line cfg pats kw st l).out = st.out := by
  unfold Scanner.stream_line
  split
  · split
    · exact ⟨h1, rfl⟩
    · exact ⟨h1, rfl⟩
  · rw [if_neg (by rw [h2]; exact Bool.false_ne_true)]
    split
    · rw [h1]
      exact ⟨h1, rfl⟩
    · exact ⟨h1, rfl⟩

theorem stream_fold_no_diff (cfg : Config) (pats : List Scanner.CompiledPattern)
    (kw : Str) :
    ∀ (lines : List Str) (st : Scanner.SState), st.cf = none →
      (∀ l ∈ lines, ("diff --git".toList).isPrefixOf l = false) →
      (lines.foldl (Scanner.stream_line cfg pats kw) st).out = st.out := by
  intro lines
  induction lines with
  | nil => intro st _ _; rfl
  | cons l ls ih =>
    intro st h1 hl
    rw [List.foldl_cons]
    obtain ⟨hcf, hout⟩ :=
      stream_line_no_diff cfg pats kw st l h1 (hl l (List.mem_cons_self _ _))
    rw [ih _ hcf (fun x hx => hl x (List.mem_cons_of_mem _ hx)), hout]

/-- C5 counterexample: a content line that arrives after a file header but
*before any commit header* is not discarded — the in-memory scan records an
event whose commit is `None`, and the streaming scan writes a line with
`commit = None`. -/
theorem content_line_before_commit_header_emits :
    (Scanner.scan cfgApi patsT "r".toList "--all".toList
      driverNoCommit).secrets_found = 1 ∧
    (Scanner.scan cfgApi patsT "r".toList "--all".toList
      driverNoCommit).secrets.map
        (fun s => s.history.map (fun h => h.commits)) = [[[none]]] ∧
    (Scanner.scan_stream cfgApi patsT driverNoCommit).map
      (fun e => e.commit) = [none] := by
  refine ⟨by decide, by decide, by decide⟩

/-- C5 amended: a content line that arrives before any *file header* is
discarded — over driver output containing no `diff --git` line, the
in-memory keyword task leaves the index unchanged and the streaming keyword
task writes nothing.  (A content line before a commit header but after a
file header is instead processed with `commit`, `author` and `date` unset;
see the counterexample.) -/
theorem no_file_header_no_events :
    ∀ (cfg : Config) (pats : List Scanner.CompiledPattern) (kw : Str)
      (lines : List Str) (index : Scanner.Index) (seen : List Str)
      (out : List Scanner.StreamEntry),
      (∀ l ∈ lines, ("diff --git".toList).isPrefixOf l = false) →
      Scanner.search_keyword cfg pats kw lines index = index ∧
      (Scanner.stream_keyword cfg pats kw lines seen out).2 = out := by
  intro cfg pats kw lines index seen out h
  constructor
  · exact search_fold_no_diff cfg pats kw lines ⟨none, none, none, none, index, true⟩ rfl h
  · exact stream_fold_no_diff cfg pats kw lines ⟨none, none, none, none, seen, out⟩ rfl h

/-- C5 witness: the discard property at a concrete input — a commit header
followed by a matching content line, but no file header. -/
theorem no_file_header_no_events_witness :
    (∀ l ∈ ["COMMIT_START|c1|alice|2024-01-01".toList,
            "+api_key=SECRET99".toList],
      ("diff --git".toList).isPrefixOf l = false) ∧
    Scanner.search_keyword cfgApi patsT "api_key".toList
      ["COMMIT_START|c1|alice|2024-01-01".toList,
       "+api_key=SECRET99".toList] [] = [] ∧
    (Scanner.stream_keyword cfgApi patsT "api_key".toList
      ["COMMIT_START|c1|alice|2024-01-01".toList,
       "+api_key=SECRET99".toList] [] []).2 = [] :=
  ⟨by decide,
    (no_file_header_no_events cfgApi patsT "api_key".toList
      ["COMMIT_START|c1|alice|2024-01-01".toList,
       "+api_key=SECRET99".toList] [] [] [] (by decide)).1,
    (no_file_header_no_events cfgApi patsT "api_key".toList
      ["COMMIT_START|c1|alice|2024-01-01".toList,
       "+api_key=SECRET99".toList] [] [] [] (by decide)).2⟩

/-! ## Claim C3: totalValues and non-empty histories -/

theorem build_secrets_length (cfg : Config) (index : Scanner.Index) :
    (Scanner.build_secrets cfg index).length =
      (index.map (fun p => p.2.length)).sum := by
  unfold Scanner.build_secrets
  rw [length_sortLe, List.length_flatten, List.map_map]
  congr 1
  apply List.map_congr_left
  intro fp _
  simp

theorem build_secrets_history (cfg : Config) (index : Scanner.Index) :
    ∀ s ∈ Scanner.build_secrets cfg index, s.history.length = 1 := by
  intro s hs
  unfold Scanner.build_secrets at hs
  rw [mem_sortLe, List.mem_flatten] at hs
  obtain ⟨l, hl, hsl⟩ := hs
  rw [List.mem_map] at hl
  obtain ⟨fp, _, rfl⟩ := hl
  rw [List.mem_map] at hsl
  obtain ⟨kv, _, rfl⟩ := hsl
  rfl

theorem mem_updA {β : Type} (k : Str) (v : β) :
    ∀ (m : List (Str × β)) (x : Str × β),
      x ∈ Scanner.updA m k v → x = (k, v) ∨ x ∈ m := by
  intro m
  induction m with
  | nil =>
    intro x hx
    simp [Scanner.updA] at hx
    exact Or.inl hx
  | cons kw rest ih =>
    intro x hx
    unfold Scanner.updA at hx
    split at hx
    · rcases List.mem_cons.mp hx with h | h
      · exact Or.inl h
      · exact Or.inr (List.mem_cons_of_mem _ h)
    · rcases List.mem_cons.mp hx with h | h
      · exact Or.inr (h ▸ List.mem_cons_self _ _)
      · rcases ih x h with h' | h'
        · exact Or.inl h'
        · exact Or.inr (List.mem_cons_of_mem _ h')

theorem foldl_vals_pres {β : Type} (P : β → Prop)
    (step : List (Str × β) → β → List (Str × β))
    (hstep : ∀ m s, (∀ kv ∈ m, P kv.2) → P s → ∀ kv ∈ step m s, P kv.2) :
    ∀ (l : List β) (m : List (Str × β)),
      (∀ kv ∈ m, P kv.2) → (∀ s ∈ l, P s) →
      ∀ kv ∈ l.foldl step m, P kv.2 := by
  intro l
  induction l with
  | nil => intro m hm _ kv hkv; exact hm kv hkv
  | cons s ss ih =>
    intro m hm hl kv hkv
    rw [List.foldl_cons] at hkv
    exact ih (step m s)
      (hstep m s hm (hl s (List.mem_cons_self _ _)))
      (fun x hx => hl x (List.mem_cons_of_mem _ hx)) kv hkv

/-- C3 counterexample: when history and working tree yield the same
`(file, key)` pair, `scan_both` reports `totalValues = 2` while its merged
`secrets` hold a single `(file, key)` pair — `totalValues` is the sum of the
two sub-results' totals and double-counts collisions. -/
theorem scan_both_total_values_double_counts :
    (Scanner.scan_both cfgApi patsT "r".toList "--all".toList "2024".toList
      driverOne filesEnv).total_values = 2 ∧
    (Scanner.scan_both cfgApi patsT "r".toList "--all".toList "2024".toList
      driverOne filesEnv).secrets.length = 1 :=
  ⟨by decide, by decide⟩

/-- C3 amended: for `scan` and `scan_current`, `totalValues` equals the
number of `(file, key)` pairs of the index, i.e. the length of `secrets`;
for `scan_both` it is instead the *sum* of the two sub-results' totals,
which exceeds the number of pairs in `secrets` exactly when a pair collides.
In all three results every secret's history has exactly one entry. -/
theorem total_values_and_history_inv :
    ∀ (cfg : Config) (pats : List Scanner.CompiledPattern)
      (repo branch now : Str) (driver : Str → List Str)
      (files : List Scanner.FileEntry),
      (Scanner.scan cfg pats repo branch driver).total_values =
        (Scanner.scan cfg pats repo branch driver).secrets.length ∧
      (Scanner.scan_current cfg pats repo now files).total_values =
        (Scanner.scan_current cfg pats repo now files).secrets.length ∧
      (Scanner.scan_both cfg pats repo branch now driver files).total_values =
        (Scanner.scan cfg pats repo branch driver).total_values +
          (Scanner.scan_current cfg pats repo now files).total_values ∧
      (∀ s ∈ (Scanner.scan cfg pats repo branch driver).secrets,
        s.history.length = 1) ∧
      (∀ s ∈ (Scanner.scan_current cfg pats repo now files).secrets,
        s.history.length = 1) ∧
      (∀ s ∈ (Scanner.scan_both cfg pats repo branch now driver files).secrets,
        s.history.length = 1) := by
  intro cfg pats repo branch now driver files
  refine ⟨(build_secrets_length cfg _).symm, (build_secrets_length cfg _).symm,
    rfl, ?_, ?_, ?_⟩
  · exact build_secrets_history cfg _
  · exact build_secrets_history cfg _
  · intro s hs
    have hhist : ∀ s ∈ (Scanner.scan cfg pats repo branch driver).secrets,
        s.history.length = 1 := by
      have h := build_secrets_history cfg
        ((get_all_keywords cfg).foldl
          (fun idx kw => Scanner.search_keyword cfg pats kw (driver kw) idx) [])
      exact h
    have hcur : ∀ s ∈ (Scanner.scan_current cfg pats repo now files).secrets,
        s.history.length = 1 := by
      have h := build_secrets_history cfg
        (files.foldl
          (Scanner.current_file_index cfg pats (get_all_keywords cfg) now) [])
      exact h
    unfold Scanner.scan_both at hs
    rw [mem_sortLe, List.mem_map] at hs
    obtain ⟨kv, hkv, rfl⟩ := hs
    have hstep1 : ∀ (m : List (Str × Scanner.Secret)) (s : Scanner.Secret),
        (∀ kv ∈ m, kv.2.history.length = 1) → s.history.length = 1 →
        ∀ kv ∈ Scanner.updA m (s.file ++ '|' :: s.key) s,
          kv.2.history.length = 1 := by
      intro m s hm hp kv hkv
      rcases mem_updA _ _ m kv hkv with h | h
      · rw [h]; exact hp
      · exact hm kv h
    have hstep2 : ∀ (m : List (Str × Scanner.Secret)) (s : Scanner.Secret),
        (∀ kv ∈ m, kv.2.history.length = 1) → s.history.length = 1 →
        ∀ kv ∈ (if (Scanner.lookupA m (s.file ++ '|' :: s.key)).isSome = true
            then m else m ++ [(s.file ++ '|' :: s.key, s)]),
          kv.2.history.length = 1 := by
      intro m s hm hp kv hkv
      split at hkv
      · exact hm kv hkv
      · rcases List.mem_append.mp hkv with h | h
        · exact hm kv h
        · rw [List.mem_singleton.mp h]; exact hp
    have hfold1 := foldl_vals_pres (fun s => s.history.length = 1)
      (fun m s => Scanner.updA m (s.file ++ '|' :: s.key) s) hstep1
      (Scanner.scan cfg pats repo branch driver).secrets []
      (by intro kv hkv; cases hkv) hhist
    exact foldl_vals_pres (fun s => s.history.length = 1)
      (fun m s =>
        if (Scanner.lookupA m (s.file ++ '|' :: s.key)).isSome = true then m
        else m ++ [(s.file ++ '|' :: s.key, s)]) hstep2
      (Scanner.scan_current cfg pats repo now files).secrets _
      hfold1 hcur kv hkv

/-! ## Claim C1: merge semantics for a new value of an existing (file, key) -/

theorem mergeSV_lastStep_keeps_value (sv : Scanner.SecretValue) (date : Option Str) :
    (Scanner.mergeSV.lastStep sv date).1.value = sv.value ∧
    (Scanner.mergeSV.lastStep sv date).1.masked_value = sv.masked_value ∧
    (Scanner.mergeSV.lastStep sv date).1.commits = sv.commits := by
  unfold Scanner.mergeSV.lastStep
  repeat' split
  all_goals exact ⟨rfl, rfl, rfl⟩

/-- C1 counterexample: over the S4 repository (two commits adding `AAAAAA`
then `BBBBBB` for `(.env, api_key)`), `scan` returns one secret whose
history has a single entry, not two. -/
theorem scan_two_values_single_history_entry :
    (Scanner.scan cfgApi patsT "r".toList "--all".toList driverS4).secrets_found = 1 ∧
    (Scanner.scan cfgApi patsT "r".toList "--all".toList driverS4).secrets.map
      (fun s => s.history.length) = [1] :=
  ⟨by decide, by decide⟩

/-- C1 amended: the scanner's merge keys on `(file, key)` only and never
creates a second history entry for a new value of an existing key — the
merge leaves `value` and `masked_value` untouched, for every event.  On the
S4 repository, `scan` returns one secret whose single history entry carries
the *first* value (`AAAAAA`), both commits, both authors, and
`firstSeen < lastSeen`; `changeCount = 2` counts the distinct commits. -/
theorem scan_merge_keeps_first_value :
    (∀ (sv : Scanner.SecretValue) (c a d : Option Str),
      (Scanner.mergeSV sv c a d).1.value = sv.value ∧
      (Scanner.mergeSV sv c a d).1.masked_value = sv.masked_value) ∧
    (Scanner.scan cfgApi patsT "r".toList "--all".toList driverS4).secrets.map
      (fun s => s.change_count) = [2] ∧
    (Scanner.scan cfgApi patsT "r".toList "--all".toList driverS4).secrets.map
      (fun s => s.history.map (fun h => h.value)) = [["AAAAAA".toList]] ∧
    (Scanner.scan cfgApi patsT "r".toList "--all".toList driverS4).secrets.map
      (fun s => s.history.map (fun h => h.commits)) =
      [[[some "c1".toList, some "c2".toList]]] ∧
    (Scanner.scan cfgApi patsT "r".toList "--all".toList driverS4).secrets.map
      (fun s => s.history.map (fun h => h.authors)) =
      [[[some "alice".toList, some "bob".toList]]] ∧
    (Scanner.scan cfgApi patsT "r".toList "--all".toList driverS4).secrets.map
      (fun s => s.history.map (fun h => h.first_seen)) =
      [[some "2024-01-01T00:00:00+00:00".toList]] ∧
    (Scanner.scan cfgApi patsT "r".toList "--all".toList driverS4).secrets.map
      (fun s => s.history.map (fun h => h.last_seen)) =
      [[some "2024-01-02T00:00:00+00:00".toList]] := by
  refine ⟨?_, by decide, by decide, by decide, by decide, by decide, by decide⟩
  intro sv c a d
  unfold Scanner.mergeSV
  repeat' (first | split | dsimp only)
  all_goals
    first
      | exact ⟨rfl, rfl⟩
      | exact ⟨(mergeSV_lastStep_keeps_value _ _).1,
          (mergeSV_lastStep_keeps_value _ _).2.1⟩

/-! ## Claims C7 and C10: streaming deduplication -/

/-- The dedup-set invariant threaded through every streaming fold: each
written entry's dedup key is in `seen`, and no two written entries share a
dedup key. -/
def StreamInv (seen : List Str) (out : List Scanner.StreamEntry) : Prop :=
  (∀ e ∈ out, Scanner.entryKey e ∈ seen) ∧
  out.Pairwise (fun a b => Scanner.entryKey a ≠ Scanner.entryKey b)

theorem pushDedup_inv (seen : List Str) (out : List Scanner.StreamEntry)
    (e : Scanner.StreamEntry) (h : StreamInv seen out) :
    StreamInv (Scanner.pushDedup seen out e).1 (Scanner.pushDedup seen out e).2 := by
  obtain ⟨hmem, hpw⟩ := h
  unfold Scanner.pushDedup
  split
  · exact ⟨hmem, hpw⟩
  · rename_i hc
    constructor
    · intro x hx
      rcases List.mem_append.mp hx with h | h
      · exact List.mem_append.mpr (Or.inl (hmem x h))
      · rw [List.mem_singleton.mp h]
        exact List.mem_append.mpr (Or.inr (List.mem_singleton.mpr rfl))
    · rw [List.pairwise_append]
      refine ⟨hpw, List.pairwise_singleton _ _, ?_⟩
      intro a ha b hb
      rw [List.mem_singleton.mp hb]
      intro heq
      apply hc
      rw [← heq]
      exact List.elem_eq_true_of_mem (hmem a ha)

theorem stream_line_inv (cfg : Config) (pats : List Scanner.CompiledPattern)
    (kw : Str) (st : Scanner.SState) (l : Str)
    (h : StreamInv st.seen st.out) :
    StreamInv (Scanner.stream_line cfg pats kw st l).seen
      (Scanner.stream_line cfg pats kw st l).out := by
  unfold Scanner.stream_line
  repeat' (first | split | dsimp only)
  all_goals
    first
      | exact h
      | exact pushDedup_inv _ _ _ h

theorem stream_keyword_inv (cfg : Config) (pats : List Scanner.CompiledPattern)
    (kw : Str) (lines : List Str) (seen : List Str)
    (out : List Scanner.StreamEntry) (h : StreamInv seen out) :
    StreamInv (Scanner.stream_keyword cfg pats kw lines seen out).1
      (Scanner.stream_keyword cfg pats kw lines seen out).2 :=
  foldl_pres (fun st : Scanner.SState => StreamInv st.seen st.out)
    (Scanner.stream_line cfg pats kw)
    (fun st l hst => stream_line_inv cfg pats kw st l hst)
    lines ⟨none, none, none, none, seen, out⟩ h

theorem scan_stream_inv (cfg : Config) (pats : List Scanner.CompiledPattern)
    (driver : Str → List Str) :
    StreamInv ((get_all_keywords cfg).foldl
        (fun (acc : List Str × List Scanner.StreamEntry) kw =>
          Scanner.stream_keyword cfg pats kw (driver kw) acc.1 acc.2) ([], [])).1
      (Scanner.scan_stream cfg pats driver) :=
  foldl_pres (fun acc : List Str × List Scanner.StreamEntry =>
      StreamInv acc.1 acc.2)
    (fun acc kw => Scanner.stream_keyword cfg pats kw (driver kw) acc.1 acc.2)
    (fun acc kw hacc => stream_keyword_inv cfg pats kw (driver kw) acc.1 acc.2 hacc)
    (get_all_keywords cfg) ([], [])
    ⟨fun e he => absurd he (List.not_mem_nil e), List.Pairwise.nil⟩

theorem current_stream_file_inv (cfg : Config)
    (pats : List Scanner.CompiledPattern) (keywords : List Str) (now : Str)
    (acc : List Str × List Scanner.StreamEntry) (fe : Scanner.FileEntry)
    (h : StreamInv acc.1 acc.2) :
    StreamInv (Scanner.current_stream_file cfg pats keywords now acc fe).1
      (Scanner.current_stream_file cfg pats keywords now acc fe).2 := by
  unfold Scanner.current_stream_file
  split
  · exact h
  · refine foldl_pres (fun acc : List Str × List Scanner.StreamEntry =>
      StreamInv acc.1 acc.2) _ ?_ fe.lines acc h
    intro acc line hacc
    refine foldl_pres (fun acc : List Str × List Scanner.StreamEntry =>
      StreamInv acc.1 acc.2) _ ?_ keywords acc hacc
    intro acc kw hacc2
    repeat' (first | split | dsimp only)
    all_goals
      first
        | exact hacc2
        | exact pushDedup_inv _ _ _ hacc2

theorem scan_current_stream_inv (cfg : Config)
    (pats : List Scanner.CompiledPattern) (now : Str)
    (files : List Scanner.FileEntry) :
    StreamInv (files.foldl
        (Scanner.current_stream_file cfg pats (get_all_keywords cfg) now)
        ([], [])).1
      (Scanner.scan_current_stream cfg pats now files) :=
  foldl_pres (fun acc : List Str × List Scanner.StreamEntry =>
      StreamInv acc.1 acc.2)
    (Scanner.current_stream_file cfg pats (get_all_keywords cfg) now)
    (fun acc fe hacc =>
      current_stream_file_inv cfg pats (get_all_keywords cfg) now acc fe hacc)
    files ([], [])
    ⟨fun e he => absurd he (List.not_mem_nil e), List.Pairwise.nil⟩

theorem scan_both_stream_inv (cfg : Config)
    (pats : List Scanner.CompiledPattern) (driver : Str → List Str) (now : Str)
    (files : List Scanner.FileEntry) :
    StreamInv ((Scanner.scan_stream cfg pats driver ++
        Scanner.scan_current_stream cfg pats now files).foldl
        (fun (acc : List Str × List Scanner.StreamEntry) e =>
          Scanner.pushDedup acc.1 acc.2 e) ([], [])).1
      (Scanner.scan_both_stream cfg pats driver now files) :=
  foldl_pres (fun acc : List Str × List Scanner.StreamEntry =>
      StreamInv acc.1 acc.2)
    (fun acc e => Scanner.pushDedup acc.1 acc.2 e)
    (fun acc e hacc => pushDedup_inv acc.1 acc.2 e hacc)
    (Scanner.scan_stream cfg pats driver ++
      Scanner.scan_current_stream cfg pats now files) ([], [])
    ⟨fun e he => absurd he (List.not_mem_nil e), List.Pairwise.nil⟩

theorem entryKey_congr (a b : Scanner.StreamEntry)
    (h1 : a.file = b.file) (h2 : a.key = b.key) (h3 : a.value = b.value) :
    Scanner.entryKey a = Scanner.entryKey b := by
  unfold Scanner.entryKey
  rw [h1, h2, h3]

/-- C7 counterexample: a triple need not be written on its first occurrence.
The triple `("a", "b|c", SECRET99)` produces a JSONL line when it is the
only event, but when the distinct triple `("a|b", "c", SECRET99)` — whose
dedup string `a|b|c|SECRET99` coincides — precedes it, the output contains
no line for it at all. -/
theorem stream_collision_drops_triple :
    (Scanner.scan_stream cfgC patsT driverCollisionTail).map
      (fun e => (e.file, e.key, e.value)) =
      [("a".toList, "b|c".toList, "SECRET99".toList)] ∧
    (Scanner.scan_stream cfgC patsT driverCollision).map
      (fun e => (e.file, e.key, e.value)) =
      [("a|b".toList, "c".toList, "SECRET99".toList)] :=
  ⟨by decide, by decide⟩

/-- C7 amended: in every streaming scan no two JSONL lines share the same
`(file, key, value)` triple, and the dedup set is carried across all
keywords; a triple is written at most once — on its first occurrence whose
dedup string `file|key|value` is new — but a triple whose dedup string
collides with an earlier distinct triple's is suppressed entirely. -/
theorem stream_outputs_pairwise_distinct :
    ∀ (cfg : Config) (pats : List Scanner.CompiledPattern)
      (driver : Str → List Str) (now : Str) (files : List Scanner.FileEntry),
      (Scanner.scan_stream cfg pats driver).Pairwise
        (fun a b => ¬ (a.file = b.file ∧ a.key = b.key ∧ a.value = b.value)) ∧
      (Scanner.scan_current_stream cfg pats now files).Pairwise
        (fun a b => ¬ (a.file = b.file ∧ a.key = b.key ∧ a.value = b.value)) ∧
      (Scanner.scan_both_stream cfg pats driver now files).Pairwise
        (fun a b => ¬ (a.file = b.file ∧ a.key = b.key ∧ a.value = b.value)) := by
  intro cfg pats driver now files
  refine ⟨?_, ?_, ?_⟩
  · exact ((scan_stream_inv cfg pats driver).2).imp
      (fun h hc => h (entryKey_congr _ _ hc.1 hc.2.1 hc.2.2))
  · exact ((scan_current_stream_inv cfg pats now files).2).imp
      (fun h hc => h (entryKey_congr _ _ hc.1 hc.2.1 hc.2.2))
  · exact ((scan_both_stream_inv cfg pats driver now files).2).imp
      (fun h hc => h (entryKey_congr _ _ hc.1 hc.2.1 hc.2.2))

/-- C10: the streaming dedup key is the bare concatenation
`file + "|" + key + "|" + value`, so the two distinct triples
`("a|b", "c", SECRET99)` and `("a", "b|c", SECRET99)` render to the same
string, and of their two events only the first is written — the second is
silently suppressed. -/
theorem stream_dedup_key_collision :
    ("a|b".toList, "c".toList, "SECRET99".toList) ≠
      (("a".toList : Str), ("b|c".toList : Str), ("SECRET99".toList : Str)) ∧
    ("a|b".toList ++ '|' :: ("c".toList ++ '|' :: "SECRET99".toList)) =
      ("a".toList ++ '|' :: ("b|c".toList ++ '|' :: "SECRET99".toList)) ∧
    (Scanner.scan_stream cfgC patsT driverCollision).map
      (fun e => (e.file, e.key, e.value)) =
      [("a|b".toList, "c".toList, "SECRET99".toList)] :=
  ⟨by decide, by decide, by decide⟩
